import Mathlib

/-!
# Verification of `stimulus.py`

A shallow embedding in Lean 4 of the sequencing layer of the
`stimulus.py` repository: the `Paradigm` class and its helper functions
(`add_stimulus`, `initialize_stimulus`, `append_stim_data`,
`play_stimulus`, `play_next`, `play_all`, `write_data`, `has_method`),
together with an idealised real-number model of the psychometric
function families exercised by the curve-fitting tests.

Python values that flow through this API are modelled by the inductive
type `PyVal`; Python exceptions by `PyErr`.  Mutation of a `Paradigm`
object is modelled by explicit state passing; the externally visible
actions of a run (showing a stimulus, writing the dataset file) are
recorded in a trace of `Event`s.
-/

namespace StimulusPy

/-- Model of the Python values handled by `stimulus.py`: `None`,
integers, (byte-)strings, tuples, lists, dicts with string keys, and
class objects (identified by their name).  Stimulus specifications are
tuples or lists of such values. -/
inductive PyVal where
  | none
  | int (n : Int)
  | str (s : String)
  | tuple (elts : List PyVal)
  | list (elts : List PyVal)
  | dict (entries : List (String × PyVal))
  | cls (name : String)

mutual

/-- Structural equality of modelled Python values (Python `==` on the
fragment we model). -/
def PyVal.beq : PyVal → PyVal → Bool
  | .none, .none => true
  | .int n, .int m => n == m
  | .str s, .str t => s == t
  | .tuple xs, .tuple ys => beqValList xs ys
  | .list xs, .list ys => beqValList xs ys
  | .dict xs, .dict ys => beqEntryList xs ys
  | .cls a, .cls b => a == b
  | _, _ => false

/-- Elementwise `PyVal.beq` on lists of values. -/
def beqValList : List PyVal → List PyVal → Bool
  | [], [] => true
  | x :: xs, y :: ys => PyVal.beq x y && beqValList xs ys
  | _, _ => false

/-- Elementwise `PyVal.beq` on dict entry lists. -/
def beqEntryList : List (String × PyVal) → List (String × PyVal) → Bool
  | [], [] => true
  | (k, v) :: xs, (l, w) :: ys => k == l && PyVal.beq v w && beqEntryList xs ys
  | _, _ => false

end

mutual

theorem PyVal.beq_sound : ∀ a b : PyVal, PyVal.beq a b = true → a = b
  | .none, .none, _ => rfl
  | .int n, .int m, h => by simpa [PyVal.beq] using h
  | .str s, .str t, h => by simpa [PyVal.beq] using h
  | .tuple xs, .tuple ys, h => by
    rw [beqValList_sound xs ys (by simpa [PyVal.beq] using h)]
  | .list xs, .list ys, h => by
    rw [beqValList_sound xs ys (by simpa [PyVal.beq] using h)]
  | .dict xs, .dict ys, h => by
    rw [beqEntryList_sound xs ys (by simpa [PyVal.beq] using h)]
  | .cls a, .cls b, h => by simpa [PyVal.beq] using h

theorem beqValList_sound : ∀ xs ys : List PyVal, beqValList xs ys = true → xs = ys
  | [], [], _ => rfl
  | x :: xs, y :: ys, h => by
    have h' := h
    simp only [beqValList, Bool.and_eq_true] at h'
    rw [PyVal.beq_sound x y h'.1, beqValList_sound xs ys h'.2]

theorem beqEntryList_sound :
    ∀ xs ys : List (String × PyVal), beqEntryList xs ys = true → xs = ys
  | [], [], _ => rfl
  | (k, v) :: xs, (l, w) :: ys, h => by
    have h' := h
    simp only [beqEntryList, Bool.and_eq_true] at h'
    obtain ⟨⟨hk, hv⟩, ht⟩ := h'
    rw [PyVal.beq_sound v w hv, beqEntryList_sound xs ys ht,
      show k = l from by simpa using hk]

end

mutual

theorem PyVal.beq_refl : ∀ a : PyVal, PyVal.beq a a = true
  | .none => rfl
  | .int n => by simp [PyVal.beq]
  | .str s => by simp [PyVal.beq]
  | .tuple xs => by simpa [PyVal.beq] using beqValList_refl xs
  | .list xs => by simpa [PyVal.beq] using beqValList_refl xs
  | .dict xs => by simpa [PyVal.beq] using beqEntryList_refl xs
  | .cls a => by simp [PyVal.beq]

theorem beqValList_refl : ∀ xs : List PyVal, beqValList xs xs = true
  | [] => rfl
  | x :: xs => by
    simp only [beqValList, Bool.and_eq_true]
    exact ⟨PyVal.beq_refl x, beqValList_refl xs⟩

theorem beqEntryList_refl : ∀ xs : List (String × PyVal), beqEntryList xs xs = true
  | [] => rfl
  | (k, v) :: xs => by
    simp only [beqEntryList, Bool.and_eq_true]
    exact ⟨⟨by simp, PyVal.beq_refl v⟩, beqEntryList_refl xs⟩

end

instance : DecidableEq PyVal := fun a b =>
  if h : PyVal.beq a b = true then isTrue (PyVal.beq_sound a b h)
  else isFalse (fun he => h (he ▸ PyVal.beq_refl a))

/-- The Python exceptions raised by the code under study. -/
inductive PyErr where
  | indexError
  | valueError (msg : String)
  | typeError
  | assertionError
  deriving DecidableEq

/-- Python truthiness (`bool(v)`) for the modelled values: `None` is
falsy, numbers are truthy unless zero, strings/tuples/lists/dicts are
truthy unless empty, class objects are truthy. -/
def PyVal.truthy : PyVal → Bool
  | .none => false
  | .int n => n != 0
  | .str s => s ≠ ""
  | .tuple elts => !elts.isEmpty
  | .list elts => !elts.isEmpty
  | .dict entries => !entries.isEmpty
  | .cls _ => true

/-- `v` is a Python `tuple` or `list` (exact type check, as in
`type(stimulus) in (tuple, list)`). -/
def isTupleOrList : PyVal → Bool
  | .tuple _ => true
  | .list _ => true
  | _ => false

/-- Translate a Python sequence index (which may be negative, counting
from the end) into a position in a list of length `len`, if in range. -/
def pyIndexNat (len : Nat) (i : Int) : Option Nat :=
  if 0 ≤ i then
    if i.toNat < len then some i.toNat else Option.none
  else
    if (-i).toNat ≤ len then some (len - (-i).toNat) else Option.none

/-- Python sequence indexing `xs[i]`, raising `IndexError` when out of
range. -/
def pyGet (xs : List PyVal) (i : Int) : Except PyErr PyVal :=
  match pyIndexNat xs.length i with
  | some j =>
    match xs.get? j with
    | some v => Except.ok v
    | Option.none => Except.error PyErr.indexError
  | Option.none => Except.error PyErr.indexError

/-- Python subscripting `v[i]` of a modelled value: defined for tuples
and lists; other values raise `TypeError`. -/
def pySubscript (v : PyVal) (i : Int) : Except PyErr PyVal :=
  match v with
  | .tuple elts => pyGet elts i
  | .list elts => pyGet elts i
  | _ => Except.error PyErr.typeError

/-- Python's `list.index(v)`: the first position holding `v`, raising
`ValueError` when `v` does not occur. -/
def firstIndexOf : List PyVal → PyVal → Except PyErr Nat
  | [], _ => Except.error (PyErr.valueError "x not in list")
  | x :: xs, v =>
    if x = v then Except.ok 0
    else (firstIndexOf xs v).map (· + 1)

/-- Python 2 `str.lower()` (ASCII-only lowercasing, as for byte
strings). -/
def pyLower (s : String) : String := ⟨s.data.map Char.toLower⟩

/-- The formats accepted by `Paradigm.__init__`
(`['csv', 'json', 'yaml', 'xlsx']`). -/
def validFormats : List String := ["csv", "json", "yaml", "xlsx"]

/-- The format-validation fragment of `Paradigm.__init__` (lines 46-49):
`self.format` becomes `format.lower()` when that is one of
`validFormats`; otherwise a `ValueError` is raised. -/
def initFormat (format : String) : Except PyErr String :=
  if pyLower format ∈ validFormats then Except.ok (pyLower format)
  else Except.error (PyErr.valueError ("Unsupported data format " ++ format))

/-- The mutable state of a `Paradigm` object (the `window` attribute is
an external toolkit handle and is not modelled). `dataset` is `none`
for Python `None` and `some rows` for a tablib `Dataset` holding
`rows`. -/
structure Paradigm where
  stimuli : List PyVal
  escape_key : Option String
  dataset : Option (List PyVal)
  format : String
  destination : String
  stim_idx : Int
  deriving DecidableEq

/-- A generic Python object as inspected by `has_method`: a record of
attribute names, each flagged with whether `getattr` on it yields a
bound method. -/
structure PyObj where
  attrs : List (String × Bool)
  deriving DecidableEq

/-- Python `hasattr(obj, name)`. -/
def hasattr (obj : PyObj) (attr : String) : Bool := (obj.attrs.lookup attr).isSome

/-- `inspect.ismethod(getattr(obj, attr))`, `false` when the attribute
is absent. -/
def attrIsMethod (obj : PyObj) (attr : String) : Bool := (obj.attrs.lookup attr).getD false

/-- `has_method(obj, method_name)` from `stimulus.py` (lines 514-517):
`hasattr(obj, 'get_data') and ismethod(getattr(obj, 'get_data'))`.
Note that the body hard-codes `'get_data'` and never consults
`method_name`. -/
def has_method (obj : PyObj) (method_name : String) : Bool :=
  hasattr obj "get_data" && attrIsMethod obj "get_data"

/-- The behaviour of the stimulus classes a paradigm may instantiate,
abstracting what `stimulus.py` delegates to the class definitions:
whether instances of a class carry a bound `get_data` method, and the
value such a method reports.  (None of the classes shipped in
`stimulus.py` defines `get_data`; clients may subclass and add one.) -/
structure ClassTable where
  hasGetDataMethod : String → Bool
  getDataValue : String → PyVal

/-- A constructed stimulus object: the class it was instantiated from
and the positional/keyword arguments passed after the window. -/
structure StimObj where
  cls : String
  args : List PyVal
  kwargs : List (String × PyVal)
  deriving DecidableEq

/-- The attribute view of a stimulus instance, as `has_method` sees it:
it exposes a bound `get_data` method exactly when its class defines
one. -/
def instanceObj (ct : ClassTable) (s : StimObj) : PyObj :=
  ⟨if ct.hasGetDataMethod s.cls then [("get_data", true)] else []⟩

/-- `Paradigm.add_stimulus` (lines 64-75): assert the argument is a
tuple or a list, then append it to `self.stimuli`.  The second
component is the exception raised, if any; on `AssertionError` the
state is returned unchanged. -/
def add_stimulus (p : Paradigm) (stimulus : PyVal) : Paradigm × Option PyErr :=
  if isTupleOrList stimulus then
    ({ p with stimuli := p.stimuli ++ [stimulus] }, Option.none)
  else (p, some PyErr.assertionError)

/-- `Paradigm.add_stimuli` (lines 77-85): `add_stimulus` on each element
in order, stopping at the first exception. -/
def add_stimuli (p : Paradigm) (stimuli : List PyVal) : Paradigm × Option PyErr :=
  match stimuli with
  | [] => (p, Option.none)
  | s :: rest =>
    match add_stimulus p s with
    | (p2, Option.none) => add_stimuli p2 rest
    | (p2, some e) => (p2, some e)

/-- The call `stim_class(self.window, *stim_args, **stim_kwargs)` at the
end of `initialize_stimulus`: the callee must be a class, `*` requires
the (already normalised) argument tuple, and `**` requires a mapping —
unpacking a non-dict (such as the empty tuple) raises `TypeError`. -/
def callStimClass (stim_class stim_args stim_kwargs : PyVal) : Except PyErr StimObj :=
  match stim_class, stim_args, stim_kwargs with
  | .cls n, .tuple argsL, .dict kw => Except.ok ⟨n, argsL, kw⟩
  | _, _, _ => Except.error PyErr.typeError

/-- `Paradigm.initialize_stimulus` (lines 174-194):
`stim_class = stim_data[0]`;
`stim_args = stim_data[1] if type(stim_data[1])==tuple else tuple()`;
`stim_kwargs = stim_data[2] if stim_args else stim_data[1]` with
`IndexError` giving `{}`; finally
`stim_class(self.window, *stim_args, **stim_kwargs)`. -/
def initialize_stimulus (stim_data : PyVal) : Except PyErr StimObj :=
  match pySubscript stim_data 0 with
  | Except.error e => Except.error e
  | Except.ok stim_class =>
    match pySubscript stim_data 1 with
    | Except.error e => Except.error e
    | Except.ok elt1 =>
      let stim_args : PyVal :=
        match elt1 with
        | .tuple _ => elt1
        | _ => .tuple []
      let stim_kwargs : PyVal :=
        if stim_args.truthy then
          match pySubscript stim_data 2 with
          | Except.ok v => v
          | Except.error _ => .dict []
        else elt1
      callStimClass stim_class stim_args stim_kwargs

/-- `Paradigm.append_stim_data` (lines 144-157): when
`has_method(stim, 'get_data')` holds, try
`self.dataset.append(stim.get_data())` and return `True`; an
`AttributeError` (in particular `None.append` when there is no dataset)
is swallowed and `False` is returned, as it is when the stimulus has no
`get_data` method. -/
def append_stim_data (ct : ClassTable) (p : Paradigm) (stim : StimObj) :
    Paradigm × Bool :=
  if has_method (instanceObj ct stim) "get_data" then
    match p.dataset with
    | some rows =>
      ({ p with dataset := some (rows ++ [ct.getDataValue stim.cls]) }, true)
    | Option.none => (p, false)
  else (p, false)

/-- The shared tail of `play_stimulus` and `play_next`: instantiate the
stimulus from its specification, `show()` it (the shown object is
returned as part of the result), append its data, and set
`self.stim_idx` to the playing index plus one. -/
def play_stimulus_at (ct : ClassTable) (p : Paradigm) (index : Int)
    (stim_data : PyVal) : Except PyErr (Paradigm × StimObj) :=
  match initialize_stimulus stim_data with
  | Except.error e => Except.error e
  | Except.ok stim =>
    let p2 := (append_stim_data ct p stim).1
    Except.ok ({ p2 with stim_idx := index + 1 }, stim)

/-- `Paradigm.play_stimulus` (lines 122-142): an `int` argument selects
`self.stimuli[stim]`; a tuple or list argument is looked up with
`self.stimuli.index(stim)` and played itself; anything else raises
`ValueError`. -/
def play_stimulus (ct : ClassTable) (p : Paradigm) (stim : PyVal) :
    Except PyErr (Paradigm × StimObj) :=
  match stim with
  | .int n =>
    match pyGet p.stimuli n with
    | Except.error e => Except.error e
    | Except.ok stim_data => play_stimulus_at ct p n stim_data
  | .tuple elts =>
    match firstIndexOf p.stimuli (.tuple elts) with
    | Except.error e => Except.error e
    | Except.ok j => play_stimulus_at ct p (Int.ofNat j) (.tuple elts)
  | .list elts =>
    match firstIndexOf p.stimuli (.list elts) with
    | Except.error e => Except.error e
    | Except.ok j => play_stimulus_at ct p (Int.ofNat j) (.list elts)
  | _ =>
    Except.error (PyErr.valueError "stim argument must be either an integer, list, or tuple")

/-- `Paradigm.play_next` (lines 104-120): with a non-empty stimulus list,
play `self.stimuli[self.stim_idx]` and do `self.stim_idx += 1`;
with an empty list raise `IndexError`. -/
def play_next (ct : ClassTable) (p : Paradigm) : Except PyErr (Paradigm × StimObj) :=
  if p.stimuli.length > 0 then
    match pyGet p.stimuli p.stim_idx with
    | Except.error e => Except.error e
    | Except.ok stim_data =>
      match initialize_stimulus stim_data with
      | Except.error e => Except.error e
      | Except.ok stim =>
        let p2 := (append_stim_data ct p stim).1
        Except.ok ({ p2 with stim_idx := p.stim_idx + 1 }, stim)
  else Except.error PyErr.indexError

/-- An externally visible action of a run: a stimulus object being
`show()`n, or the dataset file being written. -/
inductive Event where
  | showed (stim : StimObj)
  | wroteData (destination : String) (format : String)
  deriving DecidableEq

/-- `Event.wroteData`? -/
def isWriteEvent : Event → Bool
  | .wroteData _ _ => true
  | _ => false

/-- The stimulus objects shown in a trace, in order. -/
def shownStims (evs : List Event) : List StimObj :=
  evs.filterMap fun e =>
    match e with
    | .showed s => some s
    | _ => Option.none

/-- The representation attribute of the dataset chosen by
`Paradigm.write_data` (lines 159-169): `self.dataset.csv`, `.json`,
`.xlsx`, or — in the final `else` branch — `.yaml`. -/
def formatRepr (format : String) : String :=
  if format = "csv" then "csv"
  else if format = "json" then "json"
  else if format = "xlsx" then "xlsx"
  else "yaml"

/-- `Paradigm.write_data`: open `self.destination` and write the dataset
representation selected by `self.format`. -/
def write_data (p : Paradigm) : Event :=
  Event.wroteData p.destination (formatRepr p.format)

/-- `self.escape_key in event.getKeys()`: `pressed` is the list of key
names returned by one `getKeys()` call.  When `escape_key` is `None`
the membership test is always false (the list holds strings only). -/
def escPressed (escape_key : Option String) (pressed : List String) : Bool :=
  match escape_key with
  | some k => pressed.contains k
  | Option.none => false

/-- Python truthiness of `self.dataset` in `play_all`: `None` is falsy,
and a tablib `Dataset` reports its row count through `__len__`, so an
empty dataset is falsy as well. -/
def datasetTruthy : Option (List PyVal) → Bool
  | Option.none => false
  | some rows => !rows.isEmpty

/-- The `for stim in self:` loop of `Paradigm.play_all` (lines 92-95):
before each stimulus the escape key is polled (`keys` lists the
successive results of `event.getKeys()`; missing entries mean no keys
were pressed), and the loop breaks when the escape key was pressed;
otherwise the stimulus is played via `play_stimulus`.  The trace
records the shown stimulus objects in order. -/
def play_all_loop (ct : ClassTable) (p : Paradigm) (pending : List PyVal)
    (keys : List (List String)) : Except PyErr (Paradigm × List Event) :=
  match pending with
  | [] => Except.ok (p, [])
  | stim :: rest =>
    if escPressed p.escape_key (keys.headD []) then Except.ok (p, [])
    else
      match play_stimulus ct p stim with
      | Except.error e => Except.error e
      | Except.ok (p2, shown) =>
        match play_all_loop ct p2 rest keys.tail with
        | Except.error e => Except.error e
        | Except.ok (p3, evs) => Except.ok (p3, Event.showed shown :: evs)

/-- `Paradigm.play_all` (lines 87-102): play every stimulus of
`self.stimuli` in order (stopping early if the escape key is pressed),
then, `if save_dataset and self.dataset:`, call `write_data` once.
(The trailing `core.quit()` call is process exit and adds no event.) -/
def play_all (ct : ClassTable) (p : Paradigm) (keys : List (List String))
    (save_dataset : Bool) : Except PyErr (Paradigm × List Event) :=
  match play_all_loop ct p p.stimuli keys with
  | Except.error e => Except.error e
  | Except.ok (p2, evs) =>
    if save_dataset && datasetTruthy p2.dataset then
      Except.ok (p2, evs ++ [write_data p2])
    else Except.ok (p2, evs)

/-! ## Helper definitions for stating and proving properties of runs -/

/-- The effect of one `append_stim_data` call on the dataset: a `None`
dataset stays `None`; otherwise the stimulus's reported value is
appended when its class has a `get_data` method. -/
def appendRow (ct : ClassTable) (ds : Option (List PyVal)) (o : StimObj) :
    Option (List PyVal) :=
  match ds with
  | some rows =>
    if ct.hasGetDataMethod o.cls then some (rows ++ [ct.getDataValue o.cls])
    else some rows
  | Option.none => Option.none

/-- The stimulus object a specification initializes to (meaningful when
`initialize_stimulus` succeeds on it). -/
def initResult (s : PyVal) : StimObj :=
  (initialize_stimulus s).toOption.getD ⟨"", [], []⟩

/-- The rows reported by a list of shown stimulus objects, in order:
one `get_data()` value per stimulus whose class has the method. -/
def reportedRows (ct : ClassTable) (objs : List StimObj) : List PyVal :=
  objs.filterMap fun o =>
    if ct.hasGetDataMethod o.cls then some (ct.getDataValue o.cls) else Option.none

theorem has_method_instanceObj (ct : ClassTable) (s : StimObj) (m : String) :
    has_method (instanceObj ct s) m = ct.hasGetDataMethod s.cls := by
  by_cases h : ct.hasGetDataMethod s.cls <;>
    simp [has_method, instanceObj, hasattr, attrIsMethod, h, List.lookup]

theorem append_stim_data_fst (ct : ClassTable) (p : Paradigm) (s : StimObj) :
    (append_stim_data ct p s).1 = { p with dataset := appendRow ct p.dataset s } := by
  cases p with
  | mk st esc ds fmt dest idx =>
    unfold append_stim_data appendRow
    rw [has_method_instanceObj]
    by_cases h : ct.hasGetDataMethod s.cls <;> cases ds <;> simp [h]

theorem append_stim_data_snd (ct : ClassTable) (p : Paradigm) (s : StimObj) :
    (append_stim_data ct p s).2 = (ct.hasGetDataMethod s.cls && p.dataset.isSome) := by
  unfold append_stim_data
  rw [has_method_instanceObj]
  by_cases h : ct.hasGetDataMethod s.cls <;> cases hd : p.dataset <;> simp [h]

theorem pyGet_ofNat (xs : List PyVal) (i : Nat) (hi : i < xs.length) :
    pyGet xs (Int.ofNat i) = Except.ok (xs.get ⟨i, hi⟩) := by
  simp [pyGet, pyIndexNat, hi, List.get?_eq_get]

theorem firstIndexOf_get :
    ∀ (xs : List PyVal) (v : PyVal) (j : Nat),
      firstIndexOf xs v = Except.ok j → xs.get? j = some v
  | [], _, _ => by simp [firstIndexOf]
  | x :: xs, v, j => by
    intro h
    by_cases hx : x = v
    · simp only [firstIndexOf, if_pos hx] at h
      cases h
      simpa using hx
    · simp only [firstIndexOf, if_neg hx] at h
      cases hrec : firstIndexOf xs v with
      | error e => rw [hrec] at h; cases h
      | ok j' =>
        rw [hrec] at h
        simp only [Except.map] at h
        cases h
        simpa using firstIndexOf_get xs v j' hrec

theorem firstIndexOf_exists :
    ∀ (xs : List PyVal) (v : PyVal), v ∈ xs → ∃ j, firstIndexOf xs v = Except.ok j
  | [], v, h => absurd h (List.not_mem_nil v)
  | x :: xs, v, h => by
    by_cases hx : x = v
    · exact ⟨0, by simp [firstIndexOf, hx]⟩
    · have hv : v ∈ xs := by
        rcases List.mem_cons.mp h with h1 | h1
        · exact absurd h1.symm hx
        · exact h1
      obtain ⟨j, hj⟩ := firstIndexOf_exists xs v hv
      exact ⟨j + 1, by simp [firstIndexOf, hx, hj, Except.map]⟩

theorem play_stimulus_at_ok (ct : ClassTable) (p : Paradigm) (index : Int)
    (stim_data : PyVal) (o : StimObj)
    (h : initialize_stimulus stim_data = Except.ok o) :
    play_stimulus_at ct p index stim_data =
      Except.ok ({ p with dataset := appendRow ct p.dataset o,
                          stim_idx := index + 1 }, o) := by
  unfold play_stimulus_at
  rw [h]
  simp [append_stim_data_fst]

theorem initResult_eq (s : PyVal) (o : StimObj)
    (h : initialize_stimulus s = Except.ok o) : initResult s = o := by
  simp [initResult, h, Except.toOption]

theorem play_stimulus_spec_ok (ct : ClassTable) (p : Paradigm) (s : PyVal)
    (o : StimObj) (hs : isTupleOrList s = true) (hmem : s ∈ p.stimuli)
    (h : initialize_stimulus s = Except.ok o) :
    ∃ j, firstIndexOf p.stimuli s = Except.ok j ∧
      play_stimulus ct p s =
        Except.ok ({ p with dataset := appendRow ct p.dataset o,
                            stim_idx := Int.ofNat j + 1 }, o) := by
  obtain ⟨j, hj⟩ := firstIndexOf_exists p.stimuli s hmem
  refine ⟨j, hj, ?_⟩
  cases s with
  | tuple elts =>
    have hps : play_stimulus ct p (.tuple elts) =
        play_stimulus_at ct p (Int.ofNat j) (.tuple elts) := by
      show (match firstIndexOf p.stimuli (PyVal.tuple elts) with
        | Except.error e => Except.error e
        | Except.ok j => play_stimulus_at ct p (Int.ofNat j) (PyVal.tuple elts)) =
          play_stimulus_at ct p (Int.ofNat j) (PyVal.tuple elts)
      rw [hj]
    rw [hps, play_stimulus_at_ok ct p _ _ o h]
  | list elts =>
    have hps : play_stimulus ct p (.list elts) =
        play_stimulus_at ct p (Int.ofNat j) (.list elts) := by
      show (match firstIndexOf p.stimuli (PyVal.list elts) with
        | Except.error e => Except.error e
        | Except.ok j => play_stimulus_at ct p (Int.ofNat j) (PyVal.list elts)) =
          play_stimulus_at ct p (Int.ofNat j) (PyVal.list elts)
      rw [hj]
    rw [hps, play_stimulus_at_ok ct p _ _ o h]
  | none => cases hs
  | int n => cases hs
  | str t => cases hs
  | dict entries => cases hs
  | cls c => cases hs

theorem play_stimulus_at_ok_fields (ct : ClassTable) (p : Paradigm) (index : Int)
    (stim_data : PyVal) (p1 : Paradigm) (o : StimObj)
    (h : play_stimulus_at ct p index stim_data = Except.ok (p1, o)) :
    p1 = { p with dataset := appendRow ct p.dataset o, stim_idx := index + 1 } := by
  unfold play_stimulus_at at h
  cases hi : initialize_stimulus stim_data with
  | error e => rw [hi] at h; cases h
  | ok o' =>
    rw [hi] at h
    simp only [Except.ok.injEq, Prod.mk.injEq] at h
    obtain ⟨h1, h2⟩ := h
    subst h2
    rw [← h1]
    simp [append_stim_data_fst]

theorem play_stimulus_ok_fields (ct : ClassTable) (p : Paradigm) (stim : PyVal)
    (p1 : Paradigm) (o : StimObj)
    (h : play_stimulus ct p stim = Except.ok (p1, o)) :
    p1.dataset = appendRow ct p.dataset o ∧ p1.stimuli = p.stimuli ∧
    p1.escape_key = p.escape_key ∧ p1.format = p.format ∧
    p1.destination = p.destination := by
  have hfields : ∃ index : Int,
      p1 = { p with dataset := appendRow ct p.dataset o,
                    stim_idx := index + 1 } := by
    unfold play_stimulus at h
    split at h
    · split at h
      · cases h
      · exact ⟨_, play_stimulus_at_ok_fields ct p _ _ p1 o h⟩
    · split at h
      · cases h
      · exact ⟨_, play_stimulus_at_ok_fields ct p _ _ p1 o h⟩
    · split at h
      · cases h
      · exact ⟨_, play_stimulus_at_ok_fields ct p _ _ p1 o h⟩
    · cases h
  obtain ⟨index, hp1⟩ := hfields
  subst hp1
  exact ⟨rfl, rfl, rfl, rfl, rfl⟩

theorem foldl_appendRow_none (ct : ClassTable) :
    ∀ objs : List StimObj, objs.foldl (appendRow ct) Option.none = Option.none
  | [] => rfl
  | o :: objs => by
    rw [List.foldl_cons, show appendRow ct Option.none o = Option.none from rfl,
      foldl_appendRow_none ct objs]

theorem foldl_appendRow_some (ct : ClassTable) :
    ∀ (objs : List StimObj) (rows : List PyVal),
      objs.foldl (appendRow ct) (some rows) = some (rows ++ reportedRows ct objs)
  | [], rows => by simp [reportedRows]
  | o :: objs, rows => by
    rw [List.foldl_cons]
    by_cases h : ct.hasGetDataMethod o.cls
    · rw [show appendRow ct (some rows) o =
          some (rows ++ [ct.getDataValue o.cls]) from by simp [appendRow, h],
        foldl_appendRow_some ct objs]
      simp [reportedRows, h]
    · rw [show appendRow ct (some rows) o = some rows from by simp [appendRow, h],
        foldl_appendRow_some ct objs]
      simp [reportedRows, h]

theorem shownStims_map (g : PyVal → StimObj) (xs : List PyVal) :
    shownStims (xs.map fun s => Event.showed (g s)) = xs.map g := by
  induction xs with
  | nil => rfl
  | cons a l ih => simp [shownStims, List.filterMap_cons] at ih ⊢ <;> exact ih

theorem shownStims_append (a b : List Event) :
    shownStims (a ++ b) = shownStims a ++ shownStims b := by
  simp [shownStims, List.filterMap_append]

/-- Any successful `play_all_loop` run preserves every `Paradigm` field
except `dataset` and `stim_idx`, and its final dataset is the initial
one extended by one `appendRow` per shown stimulus, in trace order. -/
theorem play_all_loop_dataset (ct : ClassTable) :
    ∀ (pending : List PyVal) (keys : List (List String)) (p p2 : Paradigm)
      (evs : List Event),
      play_all_loop ct p pending keys = Except.ok (p2, evs) →
      p2.dataset = (shownStims evs).foldl (appendRow ct) p.dataset ∧
      p2.stimuli = p.stimuli ∧ p2.escape_key = p.escape_key ∧
      p2.format = p.format ∧ p2.destination = p.destination
  | [], keys, p, p2, evs, h => by
    simp only [play_all_loop, Except.ok.injEq, Prod.mk.injEq] at h
    obtain ⟨h1, h2⟩ := h
    subst h1; subst h2
    exact ⟨rfl, rfl, rfl, rfl, rfl⟩
  | s :: rest, keys, p, p2, evs, h => by
    simp only [play_all_loop] at h
    split at h
    · simp only [Except.ok.injEq, Prod.mk.injEq] at h
      obtain ⟨h1, h2⟩ := h
      subst h1; subst h2
      exact ⟨rfl, rfl, rfl, rfl, rfl⟩
    · split at h
      · cases h
      · rename_i p1 o hp
        split at h
        · cases h
        · rename_i p3 evs' hl
          simp only [Except.ok.injEq, Prod.mk.injEq] at h
          obtain ⟨h1, h2⟩ := h
          subst h1; subst h2
          obtain ⟨hds1, hst1, hek1, hfm1, hdst1⟩ :=
            play_stimulus_ok_fields ct p s p1 o hp
          obtain ⟨hds2, hst2, hek2, hfm2, hdst2⟩ :=
            play_all_loop_dataset ct rest keys.tail p1 p3 evs' hl
          refine ⟨?_, by rw [hst2, hst1], by rw [hek2, hek1],
            by rw [hfm2, hfm1], by rw [hdst2, hdst1]⟩
          rw [show shownStims (Event.showed o :: evs') = o :: shownStims evs'
                from by simp [shownStims, List.filterMap_cons],
              List.foldl_cons, ← hds1, hds2]

/-- A `play_all_loop` run in which every pending specification is a
tuple or list occurring in `self.stimuli` and initializes successfully,
and in which the escape key is never pressed, succeeds, shows exactly
the pending specifications in order, and folds their reported data into
the dataset. -/
theorem play_all_loop_ok (ct : ClassTable) :
    ∀ (pending : List PyVal) (keys : List (List String)) (p : Paradigm),
      (∀ s ∈ pending, isTupleOrList s = true) →
      (∀ s ∈ pending, s ∈ p.stimuli) →
      (∀ s ∈ pending, ∃ o, initialize_stimulus s = Except.ok o) →
      (∀ ks ∈ keys, escPressed p.escape_key ks = false) →
      ∃ p2, play_all_loop ct p pending keys =
          Except.ok (p2, pending.map fun s => Event.showed (initResult s)) ∧
        p2.stimuli = p.stimuli ∧ p2.escape_key = p.escape_key ∧
        p2.format = p.format ∧ p2.destination = p.destination ∧
        p2.dataset = (pending.map initResult).foldl (appendRow ct) p.dataset
  | [], keys, p, _, _, _, _ => ⟨p, rfl, rfl, rfl, rfl, rfl, rfl⟩
  | s :: rest, keys, p, h1, h2, h3, hesc => by
    have hs := h1 s (List.mem_cons_self s rest)
    have hmem := h2 s (List.mem_cons_self s rest)
    obtain ⟨o, ho⟩ := h3 s (List.mem_cons_self s rest)
    have hio : initResult s = o := initResult_eq s o ho
    have hkey : escPressed p.escape_key (keys.headD []) = false := by
      cases keys with
      | nil => cases hk : p.escape_key <;> simp [escPressed, hk]
      | cons k ks => exact hesc k (List.mem_cons_self k ks)
    obtain ⟨j, hj, hplay⟩ := play_stimulus_spec_ok ct p s o hs hmem ho
    obtain ⟨p2, hloop, hst, hek, hfm, hdst, hds⟩ :=
      play_all_loop_ok ct rest keys.tail
        { p with dataset := appendRow ct p.dataset o, stim_idx := Int.ofNat j + 1 }
        (fun t ht => h1 t (List.mem_cons_of_mem s ht))
        (fun t ht => h2 t (List.mem_cons_of_mem s ht))
        (fun t ht => h3 t (List.mem_cons_of_mem s ht))
        (fun ks hks => by
          cases keys with
          | nil => cases hks
          | cons k l => exact hesc ks (List.mem_cons_of_mem k hks))
    refine ⟨p2, ?_, hst, hek, hfm, hdst, ?_⟩
    · rw [List.map_cons, hio]
      simp only [play_all_loop, hkey, Bool.false_eq_true, if_false, hplay, hloop]
    · rw [hds, List.map_cons, List.foldl_cons, hio]

/-! ## Claim theorems (stand-alone claims) -/

/-- C3: `add_stimulus` raises `AssertionError` and leaves the paradigm
unchanged exactly when its argument is neither a tuple nor a list;
on a tuple or list it appends the specification at the end of
`self.stimuli` and changes no other field. -/
theorem add_stimulus_spec (p : Paradigm) (v : PyVal) :
    ((add_stimulus p v).2 = Option.none ↔ isTupleOrList v = true) ∧
    ((add_stimulus p v).2 = Option.none ∨
      (add_stimulus p v).2 = some PyErr.assertionError) ∧
    (add_stimulus p v).1.stimuli =
      (if isTupleOrList v then p.stimuli ++ [v] else p.stimuli) ∧
    (add_stimulus p v).1.escape_key = p.escape_key ∧
    (add_stimulus p v).1.dataset = p.dataset ∧
    (add_stimulus p v).1.format = p.format ∧
    (add_stimulus p v).1.destination = p.destination ∧
    (add_stimulus p v).1.stim_idx = p.stim_idx := by
  unfold add_stimulus
  by_cases h : isTupleOrList v <;> simp [h]

/-- C9: `has_method obj m` holds exactly when `obj` has an attribute
named `get_data` whose value is a bound method; the `method_name`
argument is never consulted, so every two calls on the same object
agree. -/
theorem has_method_spec (obj : PyObj) (m m2 : String) :
    (has_method obj m = true ↔
      (hasattr obj "get_data" = true ∧ attrIsMethod obj "get_data" = true)) ∧
    has_method obj m = has_method obj m2 := by
  constructor
  · simp [has_method]
  · rfl

/-- C2: `Paradigm.__init__` accepts a `format` string exactly when its
(ASCII) lowercasing is one of `csv`, `json`, `yaml`, `xlsx`, raising
`ValueError` otherwise; on success `self.format` is the lowercased
string, and `write_data` writes the dataset representation named by
`self.format` to `self.destination`. -/
theorem paradigm_format_write_spec (format : String) (p : Paradigm)
    (hp : p.format ∈ validFormats) :
    (initFormat format =
      (if pyLower format ∈ validFormats then Except.ok (pyLower format)
       else Except.error
         (PyErr.valueError ("Unsupported data format " ++ format)))) ∧
    write_data p = Event.wroteData p.destination p.format := by
  refine ⟨rfl, ?_⟩
  unfold write_data
  simp only [validFormats, List.mem_cons, List.not_mem_nil, or_false] at hp
  rcases hp with h | h | h | h <;> rw [h] <;> rfl

theorem paradigm_format_write_spec_witness :
    initFormat "CSV" = Except.ok "csv" ∧
    write_data ⟨[], Option.none, Option.none, "yaml", "out.yaml", 0⟩ =
      Event.wroteData "out.yaml" "yaml" := by
  have h := paradigm_format_write_spec "CSV"
    ⟨[], Option.none, Option.none, "yaml", "out.yaml", 0⟩ (by decide)
  exact ⟨by rw [h.1]; exact rfl, h.2⟩

/-- C10: `initialize_stimulus` on `(C, args, kwargs)` with a non-empty
argument tuple builds an instance of `C` from `args` and `kwargs`; with
`args` the empty tuple, the dict at index 2 is ignored and the empty
tuple itself is passed to `**`, so the call raises `TypeError`; on
`(C, kwargs)` with `kwargs` a dict it builds an instance of `C` from
`kwargs` alone. -/
theorem initialize_stimulus_spec (c : String) (argsL : List PyVal)
    (kw : List (String × PyVal)) (hne : argsL ≠ []) :
    initialize_stimulus
        (PyVal.tuple [PyVal.cls c, PyVal.tuple argsL, PyVal.dict kw]) =
      Except.ok ⟨c, argsL, kw⟩ ∧
    initialize_stimulus
        (PyVal.tuple [PyVal.cls c, PyVal.tuple [], PyVal.dict kw]) =
      Except.error PyErr.typeError ∧
    initialize_stimulus (PyVal.tuple [PyVal.cls c, PyVal.dict kw]) =
      Except.ok ⟨c, [], kw⟩ := by
  refine ⟨?_, rfl, rfl⟩
  have htr : (PyVal.tuple argsL).truthy = true := by
    cases argsL with
    | nil => exact absurd rfl hne
    | cons a as => simp [PyVal.truthy]
  simp [initialize_stimulus, pySubscript, pyGet, pyIndexNat, htr, callStimClass]

/-- C4: `append_stim_data` returns `True` and appends exactly the
`get_data()` value at the end of the dataset precisely when the
stimulus's class has a bound `get_data` method and the dataset is not
`None`; in every other case it returns `False` and changes nothing.
Consequently any successful playback loop run extends a non-`None`
dataset by one row per shown stimulus with a reported result, in
playback order. -/
theorem append_stim_data_spec (ct : ClassTable) (p : Paradigm) (s : StimObj) :
    ((append_stim_data ct p s).2 = true ↔
      (ct.hasGetDataMethod s.cls = true ∧ p.dataset ≠ Option.none)) ∧
    (∀ rows, p.dataset = some rows → ct.hasGetDataMethod s.cls = true →
      append_stim_data ct p s =
        ({ p with dataset := some (rows ++ [ct.getDataValue s.cls]) }, true)) ∧
    ((append_stim_data ct p s).2 = false → append_stim_data ct p s = (p, false)) ∧
    (∀ keys p2 evs rows,
      play_all_loop ct p p.stimuli keys = Except.ok (p2, evs) →
      p.dataset = some rows →
      p2.dataset = some (rows ++ reportedRows ct (shownStims evs))) := by
  refine ⟨?_, ?_, ?_, ?_⟩
  · rw [append_stim_data_snd]
    cases hd : p.dataset <;> by_cases h : ct.hasGetDataMethod s.cls <;> simp [h]
  · intro rows hrows h
    have h2 : (append_stim_data ct p s).2 = true := by
      rw [append_stim_data_snd, h, hrows]; rfl
    have h1 := append_stim_data_fst ct p s
    have : append_stim_data ct p s = ((append_stim_data ct p s).1,
        (append_stim_data ct p s).2) := rfl
    rw [this, h1, h2, show appendRow ct p.dataset s =
      some (rows ++ [ct.getDataValue s.cls]) from by rw [hrows]; simp [appendRow, h]]
  · intro h2
    have h1 := append_stim_data_fst ct p s
    have hsplit : append_stim_data ct p s = ((append_stim_data ct p s).1,
        (append_stim_data ct p s).2) := rfl
    rw [append_stim_data_snd] at h2
    have hrow : appendRow ct p.dataset s = p.dataset := by
      cases hd : p.dataset with
      | none => rfl
      | some rows =>
        rw [hd] at h2
        simp only [Option.isSome_some, Bool.and_true, Bool.and_eq_false_imp] at h2
        simp [appendRow, h2]
    rw [hsplit, h1, hrow, append_stim_data_snd, h2]
  · intro keys p2 evs rows hloop hrows
    obtain ⟨hds, _, _, _, _⟩ := play_all_loop_dataset ct p.stimuli keys p p2 evs hloop
    rw [hds, hrows, foldl_appendRow_some]

theorem append_stim_data_spec_witness :
    append_stim_data ⟨fun _ => true, fun _ => PyVal.int 7⟩
        ⟨[], Option.none, some [], "csv", "data.csv", 0⟩ ⟨"Text", [], []⟩ =
      (⟨[], Option.none, some [PyVal.int 7], "csv", "data.csv", 0⟩, true) := by
  have h := (append_stim_data_spec ⟨fun _ => true, fun _ => PyVal.int 7⟩
      ⟨[], Option.none, some [], "csv", "data.csv", 0⟩ ⟨"Text", [], []⟩).2.1 [] rfl rfl
  simpa using h

theorem initialize_stimulus_spec_witness :
    initialize_stimulus
        (PyVal.tuple [PyVal.cls "Text",
          PyVal.tuple [PyVal.str "Hello world!"], PyVal.dict []]) =
      Except.ok ⟨"Text", [PyVal.str "Hello world!"], []⟩ ∧
    initialize_stimulus
        (PyVal.tuple [PyVal.cls "Text", PyVal.tuple [], PyVal.dict []]) =
      Except.error PyErr.typeError ∧
    initialize_stimulus (PyVal.tuple [PyVal.cls "Text", PyVal.dict []]) =
      Except.ok ⟨"Text", [], []⟩ :=
  initialize_stimulus_spec "Text" [PyVal.str "Hello world!"] []
    (by simp)

/-- A class table in which no stimulus class defines `get_data` (as for
every class shipped in `stimulus.py` itself). -/
def demoCT : ClassTable := ⟨fun _ => false, fun _ => PyVal.none⟩

/-- The specification `(Text, ('Hello world!',), {})`. -/
def demoSpec : PyVal :=
  PyVal.tuple [PyVal.cls "Text", PyVal.tuple [PyVal.str "Hello world!"], PyVal.dict []]

/-- The stimulus object `demoSpec` initializes to. -/
def demoObj : StimObj := ⟨"Text", [PyVal.str "Hello world!"], []⟩

/-- The specification `(Pause, (2,))`. -/
def demoSpec2 : PyVal := PyVal.tuple [PyVal.cls "Pause", PyVal.tuple [PyVal.int 2]]

/-- A two-stimulus paradigm with an escape key and an empty dataset. -/
def demoPar : Paradigm :=
  ⟨[demoSpec, demoSpec2], some "escape", some [], "csv", "data.csv", 0⟩

/-- A one-stimulus paradigm with no escape key and an empty (but
non-`None`) dataset, destined for `data.csv` in CSV format. -/
def cex5Par : Paradigm := ⟨[demoSpec], Option.none, some [], "csv", "data.csv", 0⟩

/-- C6: the sequencing state is just the next index: `play_next` plays
the specification at position `stim_idx` and bumps `stim_idx` by one;
`play_stimulus` on an integer index `i` plays `self.stimuli[i]` and
leaves `stim_idx = i + 1`; `play_stimulus` on a specification tuple or
list plays that specification, which sits at the position
`self.stimuli.index(stim)` reports, and leaves `stim_idx` at that
position plus one.  The stimulus list itself never changes. -/
theorem sequencing_next_index_spec (ct : ClassTable) (p : Paradigm) :
    (∀ (i : Nat) (hi : i < p.stimuli.length) (o : StimObj),
      p.stim_idx = Int.ofNat i →
      initialize_stimulus (p.stimuli.get ⟨i, hi⟩) = Except.ok o →
      ∃ p2, play_next ct p = Except.ok (p2, o) ∧
        p2.stim_idx = p.stim_idx + 1 ∧ p2.stimuli = p.stimuli) ∧
    (∀ (i : Nat) (hi : i < p.stimuli.length) (o : StimObj),
      initialize_stimulus (p.stimuli.get ⟨i, hi⟩) = Except.ok o →
      ∃ p2, play_stimulus ct p (PyVal.int (Int.ofNat i)) = Except.ok (p2, o) ∧
        p2.stim_idx = Int.ofNat i + 1 ∧ p2.stimuli = p.stimuli) ∧
    (∀ (t : PyVal) (j : Nat) (o : StimObj),
      isTupleOrList t = true → t ∈ p.stimuli →
      firstIndexOf p.stimuli t = Except.ok j →
      initialize_stimulus t = Except.ok o →
      ∃ p2, play_stimulus ct p t = Except.ok (p2, o) ∧
        p2.stim_idx = Int.ofNat j + 1 ∧ p2.stimuli = p.stimuli ∧
        p.stimuli.get? j = some t) := by
  refine ⟨?_, ?_, ?_⟩
  · intro i hi o hidx ho
    have hlen : p.stimuli.length > 0 := Nat.lt_of_le_of_lt (Nat.zero_le i) hi
    have hpn : play_next ct p =
        play_stimulus_at ct p p.stim_idx (p.stimuli.get ⟨i, hi⟩) := by
      unfold play_next
      rw [if_pos hlen, hidx, pyGet_ofNat p.stimuli i hi]
      rfl
    refine ⟨{ p with dataset := appendRow ct p.dataset o,
                     stim_idx := p.stim_idx + 1 }, ?_, rfl, rfl⟩
    rw [hpn, play_stimulus_at_ok ct p p.stim_idx _ o ho]
  · intro i hi o ho
    have hpi : play_stimulus ct p (PyVal.int (Int.ofNat i)) =
        play_stimulus_at ct p (Int.ofNat i) (p.stimuli.get ⟨i, hi⟩) := by
      show (match pyGet p.stimuli (Int.ofNat i) with
        | Except.error e => Except.error e
        | Except.ok stim_data =>
          play_stimulus_at ct p (Int.ofNat i) stim_data) =
        play_stimulus_at ct p (Int.ofNat i) (p.stimuli.get ⟨i, hi⟩)
      rw [pyGet_ofNat p.stimuli i hi]
    refine ⟨{ p with dataset := appendRow ct p.dataset o,
                     stim_idx := Int.ofNat i + 1 }, ?_, rfl, rfl⟩
    rw [hpi, play_stimulus_at_ok ct p _ _ o ho]
  · intro t j o ht hmem hj ho
    obtain ⟨j', hj', hplay⟩ := play_stimulus_spec_ok ct p t o ht hmem ho
    rw [hj] at hj'
    injection hj' with hjj
    subst hjj
    exact ⟨_, hplay, rfl, rfl, firstIndexOf_get p.stimuli t j hj⟩

theorem sequencing_next_index_spec_witness :
    ∃ p2, play_next demoCT demoPar = Except.ok (p2, demoObj) ∧
      p2.stim_idx = demoPar.stim_idx + 1 ∧ p2.stimuli = demoPar.stimuli :=
  (sequencing_next_index_spec demoCT demoPar).1 0 (by decide) demoObj rfl rfl

/-- C1: a full `play_all` run in which the escape key is never pressed
(and in which every specification is a well-formed tuple/list that
initializes successfully) shows exactly the stimuli of `self.stimuli`,
in list order, each specification interpreted once by
`initialize_stimulus` into a stimulus object whose `show()` is called;
no other stimulus is shown. -/
theorem play_all_shows_all_in_order (ct : ClassTable) (p : Paradigm)
    (keys : List (List String)) (save_dataset : Bool)
    (h1 : ∀ s ∈ p.stimuli, isTupleOrList s = true)
    (h2 : ∀ s ∈ p.stimuli, ∃ o, initialize_stimulus s = Except.ok o)
    (hesc : ∀ ks ∈ keys, escPressed p.escape_key ks = false) :
    ∃ p2 evs, play_all ct p keys save_dataset = Except.ok (p2, evs) ∧
      shownStims evs = p.stimuli.map initResult := by
  obtain ⟨p2, hloop, _, _, _, _, _⟩ :=
    play_all_loop_ok ct p.stimuli keys p h1 (fun s hs => hs) h2 hesc
  cases hw : (save_dataset && datasetTruthy p2.dataset) with
  | false =>
    refine ⟨p2, p.stimuli.map fun s => Event.showed (initResult s), ?_, ?_⟩
    · simp only [play_all, hloop, hw, Bool.false_eq_true, if_false]
    · exact shownStims_map initResult p.stimuli
  | true =>
    refine ⟨p2, (p.stimuli.map fun s => Event.showed (initResult s)) ++
      [write_data p2], ?_, ?_⟩
    · simp only [play_all, hloop, hw, if_true]
    · rw [shownStims_append, shownStims_map,
        show shownStims [write_data p2] = [] from rfl, List.append_nil]

theorem play_all_shows_all_in_order_witness :
    ∃ p2 evs, play_all demoCT demoPar [] true = Except.ok (p2, evs) ∧
      shownStims evs = demoPar.stimuli.map initResult :=
  play_all_shows_all_in_order demoCT demoPar [] true (by decide)
    (by
      intro s hs
      rcases List.mem_cons.mp hs with h | h
      · exact ⟨demoObj, by subst h; rfl⟩
      rcases List.mem_cons.mp h with h2 | h2
      · exact ⟨⟨"Pause", [PyVal.int 2], []⟩, by subst h2; rfl⟩
      · exact absurd h2 (List.not_mem_nil s))
    (fun ks hks => absurd hks (List.not_mem_nil ks))

/-- C5 (amended): on a successful full run, `play_all` performs the
`write_data` call exactly once, after every stimulus of the run has
been played (never between stimuli), provided `save_dataset` is true
and the final dataset is truthy — non-`None` and holding at least one
row; if `save_dataset` is false, or the dataset is `None` (a `None`
dataset can never acquire rows), or the dataset ends the run empty, the
destination file is never written.  (The guard
`if save_dataset and self.dataset:` tests truthiness of the tablib
dataset, whose `__len__` is its row count, not `None`-ness.) -/
theorem play_all_writes_once_at_end (ct : ClassTable) (p : Paradigm)
    (keys : List (List String)) (save_dataset : Bool)
    (h1 : ∀ s ∈ p.stimuli, isTupleOrList s = true)
    (h2 : ∀ s ∈ p.stimuli, ∃ o, initialize_stimulus s = Except.ok o)
    (hesc : ∀ ks ∈ keys, escPressed p.escape_key ks = false) :
    ∃ p2, play_all ct p keys save_dataset =
        Except.ok (p2,
          (p.stimuli.map fun s => Event.showed (initResult s)) ++
            (if save_dataset && datasetTruthy p2.dataset then [write_data p2]
             else [])) ∧
      (∀ e ∈ p.stimuli.map fun s => Event.showed (initResult s),
        isWriteEvent e = false) ∧
      (p.dataset = Option.none → p2.dataset = Option.none) := by
  obtain ⟨p2, hloop, _, _, _, _, hds⟩ :=
    play_all_loop_ok ct p.stimuli keys p h1 (fun s hs => hs) h2 hesc
  refine ⟨p2, ?_, ?_, ?_⟩
  · cases hw : (save_dataset && datasetTruthy p2.dataset) with
    | false =>
      simp only [play_all, hloop, hw, Bool.false_eq_true, if_false,
        List.append_nil]
    | true => simp only [play_all, hloop, hw, if_true]
  · intro e he
    obtain ⟨s, _, rfl⟩ := List.mem_map.mp he
    rfl
  · intro hnone
    rw [hds, hnone, foldl_appendRow_none]

theorem play_all_writes_once_at_end_witness :
    ∃ p2, play_all demoCT demoPar [] true =
        Except.ok (p2,
          (demoPar.stimuli.map fun s => Event.showed (initResult s)) ++
            (if true && datasetTruthy p2.dataset then [write_data p2]
             else [])) ∧
      (∀ e ∈ demoPar.stimuli.map fun s => Event.showed (initResult s),
        isWriteEvent e = false) ∧
      (demoPar.dataset = Option.none → p2.dataset = Option.none) :=
  play_all_writes_once_at_end demoCT demoPar [] true (by decide)
    (by
      intro s hs
      rcases List.mem_cons.mp hs with h | h
      · exact ⟨demoObj, by subst h; rfl⟩
      rcases List.mem_cons.mp h with h2 | h2
      · exact ⟨⟨"Pause", [PyVal.int 2], []⟩, by subst h2; rfl⟩
      · exact absurd h2 (List.not_mem_nil s))
    (fun ks hks => absurd hks (List.not_mem_nil ks))

/-- C5, counterexample to the claim as stated: `save_dataset` is true,
`self.dataset` is not `None` (it is an empty dataset), the run plays
its single stimulus to completion, yet the trace holds no `write_data`
event at all: the guard `if save_dataset and self.dataset:` tests
truthiness, and a dataset that ends the run without rows is falsy. -/
theorem play_all_write_claim_counterexample :
    cex5Par.dataset = some [] ∧
    play_all demoCT cex5Par [] true =
      Except.ok ({ cex5Par with stim_idx := 1 }, [Event.showed demoObj]) ∧
    isWriteEvent (Event.showed demoObj) = false :=
  ⟨rfl, rfl, rfl⟩

/-! ## Psychometric function families

The curve-fitting classes `FitCumNormal`, `FitWeibull` and
`FitLogistic` exercised by `test_fitFunctions.py` live in
`psychopy.data`, outside `src/`; only the synthetic-data generator
`cumNorm` is source.  The families are therefore modelled over ℝ from
the spec's description (cumulative normal / Weibull / logistic response
curves scaled from chance level to 1, each paired with its inverse). -/

noncomputable section

/-- `scipy.special.erf`, the Gauss error function
`erf x = (2/√π) ∫ 0..x exp(-t²) dt`, used by the cumulative-normal
family. -/
def erf (x : ℝ) : ℝ :=
  ∫ t in (0:ℝ)..x, (2 / Real.sqrt Real.pi) * Real.exp (-(t ^ 2))

/-- `cumNorm` from `test_fitFunctions.py` (lines 12-20): with
`slope = 1/noise`, the response `erf((xx - thresh)*slope)/2 + 0.5`,
scaled from `chance` to 1. -/
def cumNorm (noise thresh chance x : ℝ) : ℝ :=
  (erf ((x - thresh) * (1 / noise)) / 2 + 1 / 2) * (1 - chance) + chance

/-- Modelled from the spec: `scipy.special.erfinv`, the inverse function
of `erf`. -/
def erfinv (y : ℝ) : ℝ := Function.invFun erf y

/-- Modelled from the spec: the inverse of the cumulative-normal
psychometric function (`FitCumNormal.inverse`): undo the chance
scaling, apply `erfinv`, undo the threshold/noise transform. -/
def cumNormInverse (noise thresh chance y : ℝ) : ℝ :=
  thresh + noise * erfinv (2 * ((y - chance) / (1 - chance)) - 1)

/-- Modelled from the spec: the Weibull psychometric function
(`FitWeibull.eval`), scaled from `chance` to 1. -/
def weibullEval (alpha beta chance x : ℝ) : ℝ :=
  chance + (1 - chance) * (1 - Real.exp (-((x / alpha) ^ beta)))

/-- Modelled from the spec: the inverse of the Weibull psychometric
function (`FitWeibull.inverse`). -/
def weibullInverse (alpha beta chance y : ℝ) : ℝ :=
  alpha * (-Real.log ((1 - y) / (1 - chance))) ^ (1 / beta)

/-- Modelled from the spec: the logistic psychometric function
(`FitLogistic.eval`), scaled from `chance` to 1. -/
def logisticEval (pse jnd chance x : ℝ) : ℝ :=
  chance + (1 - chance) / (1 + Real.exp ((pse - x) * jnd))

/-- Modelled from the spec: the inverse of the logistic psychometric
function (`FitLogistic.inverse`). -/
def logisticInverse (pse jnd chance y : ℝ) : ℝ :=
  pse - Real.log ((1 - chance) / (y - chance) - 1) / jnd

end

theorem erf_strictMono : StrictMono erf := by
  intro a b hab
  have hcont : Continuous fun t : ℝ =>
      (2 / Real.sqrt Real.pi) * Real.exp (-(t ^ 2)) := by continuity
  have hint : ∀ u v : ℝ,
      IntervalIntegrable (fun t => (2 / Real.sqrt Real.pi) * Real.exp (-(t ^ 2)))
        MeasureTheory.volume u v := fun u v => hcont.intervalIntegrable u v
  have hsplit :
      erf a + ∫ t in a..b, (2 / Real.sqrt Real.pi) * Real.exp (-(t ^ 2)) = erf b :=
    intervalIntegral.integral_add_adjacent_intervals (hint 0 a) (hint a b)
  have hpos : 0 < ∫ t in a..b, (2 / Real.sqrt Real.pi) * Real.exp (-(t ^ 2)) := by
    refine intervalIntegral.intervalIntegral_pos_of_pos (hint a b) ?_ hab
    intro t
    have h2 : 0 < 2 / Real.sqrt Real.pi :=
      div_pos two_pos (Real.sqrt_pos.mpr Real.pi_pos)
    exact mul_pos h2 (Real.exp_pos _)
  linarith

theorem erfinv_erf (x : ℝ) : erfinv (erf x) = x :=
  Function.leftInverse_invFun erf_strictMono.injective x

/-- C7: for each of the three psychometric families — cumulative normal
(the exact generator of the synthetic data), Weibull, and logistic —
and any admissible parameters, applying the model's inverse to the
model's evaluation returns the original stimulus level exactly (hence
in particular within `numpy.allclose` tolerance at the test contrast
levels). -/
theorem fit_inverse_roundtrip (noise thresh chance alpha beta pse jnd x : ℝ)
    (hnoise : noise ≠ 0) (hchance : chance < 1) (halpha : 0 < alpha)
    (hbeta : 0 < beta) (hx : 0 ≤ x) (hjnd : jnd ≠ 0) :
    cumNormInverse noise thresh chance (cumNorm noise thresh chance x) = x ∧
    weibullInverse alpha beta chance (weibullEval alpha beta chance x) = x ∧
    logisticInverse pse jnd chance (logisticEval pse jnd chance x) = x := by
  have hc1 : (0:ℝ) < 1 - chance := by linarith
  have hc : (1:ℝ) - chance ≠ 0 := ne_of_gt hc1
  have halpha' : alpha ≠ 0 := ne_of_gt halpha
  refine ⟨?_, ?_, ?_⟩
  · unfold cumNormInverse cumNorm
    have harg :
        2 * ((((erf ((x - thresh) * (1 / noise)) / 2 + 1 / 2) * (1 - chance) +
          chance) - chance) / (1 - chance)) - 1 =
          erf ((x - thresh) * (1 / noise)) := by
      field_simp
      ring
    rw [harg, erfinv_erf]
    field_simp
  · have hxa : (0:ℝ) ≤ x / alpha := div_nonneg hx halpha.le
    have hz : -Real.log ((1 - weibullEval alpha beta chance x) / (1 - chance)) =
        (x / alpha) ^ beta := by
      unfold weibullEval
      rw [show 1 - (chance + (1 - chance) *
            (1 - Real.exp (-((x / alpha) ^ beta)))) =
          (1 - chance) * Real.exp (-((x / alpha) ^ beta)) from by ring,
        mul_div_cancel_left₀ _ hc, Real.log_exp, neg_neg]
    unfold weibullInverse
    rw [hz, ← Real.rpow_mul hxa, mul_one_div_cancel (ne_of_gt hbeta),
      Real.rpow_one]
    field_simp
  · unfold logisticInverse logisticEval
    have hE : (0:ℝ) < Real.exp ((pse - x) * jnd) := Real.exp_pos _
    have h1E : (1:ℝ) + Real.exp ((pse - x) * jnd) ≠ 0 := by positivity
    have hab : (1 - chance) / (1 + Real.exp ((pse - x) * jnd)) ≠ 0 :=
      div_ne_zero hc h1E
    have harg : (1 - chance) /
          ((chance + (1 - chance) / (1 + Real.exp ((pse - x) * jnd))) - chance) -
          1 = Real.exp ((pse - x) * jnd) := by
      rw [show (chance + (1 - chance) / (1 + Real.exp ((pse - x) * jnd))) -
          chance = (1 - chance) / (1 + Real.exp ((pse - x) * jnd)) from by ring]
      rw [div_div_eq_mul_div, mul_div_cancel_left₀ _ hc]
      ring
    rw [harg, Real.log_exp]
    field_simp

theorem fit_inverse_roundtrip_witness :
    cumNormInverse 1 0 (1/2) (cumNorm 1 0 (1/2) 1) = 1 ∧
    weibullInverse 1 1 (1/2) (weibullEval 1 1 (1/2) 1) = 1 ∧
    logisticInverse 0 1 (1/2) (logisticEval 0 1 (1/2) 1) = 1 :=
  fit_inverse_roundtrip 1 0 (1/2) 1 1 0 1 1 one_ne_zero one_half_lt_one
    one_pos one_pos zero_le_one one_ne_zero

end StimulusPy
